import Mathlib

/-!
Shallow embedding of `src/motor/util.py`, class `MotorGreenletEvent` (the
"Gate" synchronization primitive of the spec), together with a small
reactor transition system used to state reachability invariants.

Modelling conventions:
* Greenlets (cooperative worker contexts) and timer handles are naturals.
* The calls the Gate makes to the reactor (`io_loop`) and to greenlets are
  recorded as an explicit list of `Effect`s, in the order the Python code
  issues them.
* Python `set` objects are modelled as duplicate-free lists: `setAdd` is
  `set.add` (a no-op when the element is present), `List.erase` is
  `set.remove` on a duplicate-free list.
* The closure `on_timeout` captures both the waiting greenlet (`current`)
  and its timer handle (`timeout`); accordingly `timeouts` stores the pair
  (handle, greenlet) where the Python `_timeouts` set stores the handle and
  the closure remembers the greenlet.
* The reactor's own live-timer set always equals `_timeouts`: every
  `add_timeout` is immediately paired with `_timeouts.add`, every
  `remove_timeout` with clearing `_timeouts`, and a firing timer removes
  itself from `_timeouts`; so the step machine uses `timeouts` membership
  as the condition for a timer being able to fire.
-/

namespace Motor

/-- Greenlet identifiers (cooperative worker contexts), modelled as naturals. -/
abbrev Greenlet := Nat

/-- Timer handles returned by `io_loop.add_timeout`, modelled as naturals. -/
abbrev TimerHandle := Nat

/-- Calls issued by the Gate to the reactor and to greenlets:
`removeTimeout t` is `io_loop.remove_timeout(t)`;
`addCallback g` is `io_loop.add_callback(g.switch)` (a deferred resumption);
`addTimeout secs t` is `io_loop.add_timeout(timedelta(seconds=secs), on_timeout)`
returning handle `t`;
`switch g` is a direct, immediate `g.switch()`;
`parentSwitch p` is `parent.switch()` (the waiter yielding to its parent). -/
inductive Effect where
  | removeTimeout (t : TimerHandle)
  | addCallback (g : Greenlet)
  | addTimeout (seconds : ℚ) (t : TimerHandle)
  | switch (g : Greenlet)
  | parentSwitch (p : Greenlet)
deriving DecidableEq

/-- The mutable state of a `MotorGreenletEvent`: `_flag`, `_waiters`,
`_timeouts` (each pending timeout paired with the waiter its closure holds). -/
structure GateState where
  flag : Bool
  waiters : List Greenlet
  timeouts : List (TimerHandle × Greenlet)
deriving DecidableEq

/-- Python `set.add`: insert unless already present. -/
def setAdd {α : Type} [DecidableEq α] (xs : List α) (x : α) : List α :=
  if x ∈ xs then xs else x :: xs

namespace MotorGreenletEvent

/-- `__init__`: `_flag = False`, `_waiters = set()`, `_timeouts = set()`. -/
def init : GateState := { flag := false, waiters := [], timeouts := [] }

/-- `is_set`: return `self._flag`. -/
def is_set (s : GateState) : Bool := s.flag

/-- `isSet = is_set` (alias in the source). -/
def isSet (s : GateState) : Bool := is_set s

/-- `set`: set `_flag = True`; swap `_timeouts` out and call
`io_loop.remove_timeout` on each; swap `_waiters` out and call
`io_loop.add_callback(waiter.switch)` for each (deferred resumption). -/
def set (s : GateState) : GateState × List Effect :=
  ({ flag := true, waiters := [], timeouts := [] },
    s.timeouts.map (fun tg => Effect.removeTimeout tg.1)
      ++ s.waiters.map (fun g => Effect.addCallback g))

/-- `clear`: set `_flag = False`. Nothing else is touched, no reactor calls. -/
def clear (s : GateState) : GateState × List Effect :=
  ({ s with flag := false }, [])

/-- The closure `on_timeout` inside `wait`, for captured waiter `current`
and timer handle `timeout`: `self._waiters.remove(current)`,
`self._timeouts.remove(timeout)`, `current.switch()` (a direct switch, run
on the reactor thread). Python `set.remove` raises `KeyError` when the
element is absent; `none` models that failure (it never occurs in reachable
states, see the invariants below). -/
def on_timeout (s : GateState) (current : Greenlet) (timeout : TimerHandle) :
    Option (GateState × List Effect) :=
  if current ∈ s.waiters then
    if (timeout, current) ∈ s.timeouts then
      some ({ s with
                waiters := s.waiters.erase current,
                timeouts := s.timeouts.erase (timeout, current) },
        [Effect.switch current])
    else none
  else none

/-- The failure of `assert parent, "Should be on child greenlet"`. -/
inductive WaitError where
  | assertionFailed
deriving DecidableEq

/-- `wait(timeout_seconds=None)`: `current = greenlet.getcurrent()`,
`parent = current.parent`, `assert parent`; if `_flag` is false, add
`current` to `_waiters`, and if a timeout was requested, register a timer
(whose reactor handle the model passes in as `handle`) and add it to
`_timeouts`; finally `parent.switch()`. If `_flag` is already true the
whole block is skipped and `wait` returns at once with no reactor calls. -/
def wait (s : GateState) (current : Greenlet) (parent : Option Greenlet)
    (timeout_seconds : Option ℚ) (handle : TimerHandle) :
    Except WaitError (GateState × List Effect) :=
  match parent with
  | none => Except.error WaitError.assertionFailed
  | some p =>
    if s.flag then Except.ok (s, [])
    else
      match timeout_seconds with
      | none =>
          Except.ok ({ s with waiters := setAdd s.waiters current },
            [Effect.parentSwitch p])
      | some secs =>
          Except.ok ({ s with
                        waiters := setAdd s.waiters current,
                        timeouts := setAdd s.timeouts (handle, current) },
            [Effect.addTimeout secs handle, Effect.parentSwitch p])

end MotorGreenletEvent

/-- A reactor-level configuration: the Gate state, the reactor's deferred
callback queue (greenlets whose `switch` was enqueued by `add_callback`),
and the log of greenlets actually resumed so far. -/
structure Config where
  gate : GateState
  queue : List Greenlet
  resumedLog : List Greenlet
deriving DecidableEq

/-- The greenlets a list of effects defers through `add_callback`. -/
def callbacksOf (effs : List Effect) : List Greenlet :=
  effs.filterMap fun e =>
    match e with
    | Effect.addCallback g => some g
    | _ => none

/-- Events of the reactor transition system: a producer calls `set`; someone
calls `clear`; greenlet `g` (with the given parent) calls `wait`, the fresh
timer handle being `handle`; a registered timer fires (`on_timeout` runs for
waiter `g` and handle `t`); the reactor pops one deferred callback. -/
inductive Action where
  | aSet
  | aClear
  | aWait (g : Greenlet) (parent : Option Greenlet)
      (timeout_seconds : Option ℚ) (handle : TimerHandle)
  | aTimeout (g : Greenlet) (t : TimerHandle)
  | aCallback
deriving DecidableEq

/-- Side conditions under which a real `wait` call by `g` can happen: `g` is
currently running, hence neither suspended in `waiters` nor pending in the
callback queue, and the reactor hands out a fresh timer handle. -/
def waitEnabled (c : Config) (g : Greenlet) (handle : TimerHandle) : Prop :=
  g ∉ c.gate.waiters ∧ g ∉ c.queue ∧ ∀ p ∈ c.gate.timeouts, p.1 ≠ handle

instance waitEnabled.dec (c : Config) (g : Greenlet) (handle : TimerHandle) :
    Decidable (waitEnabled c g handle) := by
  unfold waitEnabled; infer_instance

/-- One reactor step. `none` means the action is not enabled (or would crash
with an assertion/KeyError, which never happens from reachable states). -/
def step (c : Config) : Action → Option Config
  | Action.aSet =>
      let r := MotorGreenletEvent.set c.gate
      some { gate := r.1,
             queue := c.queue ++ callbacksOf r.2,
             resumedLog := c.resumedLog }
  | Action.aClear =>
      some { c with gate := (MotorGreenletEvent.clear c.gate).1 }
  | Action.aWait g parent tmo handle =>
      if waitEnabled c g handle then
        match MotorGreenletEvent.wait c.gate g parent tmo handle with
        | Except.error _ => none
        | Except.ok r => some { c with gate := r.1 }
      else none
  | Action.aTimeout g t =>
      match MotorGreenletEvent.on_timeout c.gate g t with
      | none => none
      | some r =>
          some { gate := r.1,
                 queue := c.queue,
                 resumedLog := c.resumedLog ++ [g] }
  | Action.aCallback =>
      match c.queue with
      | [] => none
      | g :: rest =>
          some { gate := c.gate,
                 queue := rest,
                 resumedLog := c.resumedLog ++ [g] }

/-- The configuration right after constructing the Gate. -/
def initConfig : Config :=
  { gate := MotorGreenletEvent.init, queue := [], resumedLog := [] }

/-- Configurations reachable from `initConfig` by reactor steps. -/
inductive Reachable : Config → Prop where
  | init : Reachable initConfig
  | next {c : Config} {a : Action} {c' : Config} :
      Reachable c → step c a = some c' → Reachable c'

/-- Invariants of reachable configurations. -/
structure Inv (c : Config) : Prop where
  waitersNodup : c.gate.waiters.Nodup
  timeoutsNodup : c.gate.timeouts.Nodup
  paired : ∀ t g, (t, g) ∈ c.gate.timeouts → g ∈ c.gate.waiters
  timerUnique : ∀ t t' g, (t, g) ∈ c.gate.timeouts →
    (t', g) ∈ c.gate.timeouts → t = t'
  flagClean : c.gate.flag = true → c.gate.waiters = [] ∧ c.gate.timeouts = []
  queueDisjoint : ∀ g, g ∈ c.queue → g ∉ c.gate.waiters
  queueNodup : c.queue.Nodup

theorem mem_setAdd {α : Type} [DecidableEq α] {xs : List α} {x a : α} :
    a ∈ setAdd xs x ↔ a = x ∨ a ∈ xs := by
  unfold setAdd
  by_cases h : x ∈ xs
  · simp only [if_pos h]
    constructor
    · exact Or.inr
    · rintro (rfl | ha)
      · exact h
      · exact ha
  · simp [if_neg h, List.mem_cons]

theorem nodup_setAdd {α : Type} [DecidableEq α] {xs : List α} (x : α)
    (h : xs.Nodup) : (setAdd xs x).Nodup := by
  unfold setAdd
  by_cases hx : x ∈ xs
  · simpa [if_pos hx] using h
  · simp [if_neg hx, List.nodup_cons, hx, h]

theorem callbacksOf_set (s : GateState) :
    callbacksOf (MotorGreenletEvent.set s).2 = s.waiters := by
  unfold callbacksOf MotorGreenletEvent.set
  simp [List.filterMap_append, List.filterMap_map, Function.comp_def]

theorem on_timeout_eq_some {s : GateState} {g : Greenlet} {t : TimerHandle}
    {r : GateState × List Effect}
    (h : MotorGreenletEvent.on_timeout s g t = some r) :
    g ∈ s.waiters ∧ (t, g) ∈ s.timeouts ∧
      r = ({ s with
              waiters := s.waiters.erase g,
              timeouts := s.timeouts.erase (t, g) },
        [Effect.switch g]) := by
  unfold MotorGreenletEvent.on_timeout at h
  by_cases hw : g ∈ s.waiters
  · rw [if_pos hw] at h
    by_cases ht : (t, g) ∈ s.timeouts
    · rw [if_pos ht] at h
      injection h with h
      exact ⟨hw, ht, h.symm⟩
    · rw [if_neg ht] at h
      exact Option.noConfusion h
  · rw [if_neg hw] at h
    exact Option.noConfusion h

theorem inv_step {c : Config} {a : Action} {c' : Config}
    (hI : Inv c) (hs : step c a = some c') : Inv c' := by
  cases a with
  | aSet =>
      simp only [step] at hs
      cases hs
      refine ⟨?_, ?_, ?_, ?_, ?_, ?_, ?_⟩
      · simp [MotorGreenletEvent.set]
      · simp [MotorGreenletEvent.set]
      · intro t g hm
        simp [MotorGreenletEvent.set] at hm
      · intro t t' g hm
        simp [MotorGreenletEvent.set] at hm
      · intro _
        simp [MotorGreenletEvent.set]
      · intro g _
        simp [MotorGreenletEvent.set]
      · rw [callbacksOf_set]
        exact hI.queueNodup.append hI.waitersNodup
          (fun a ha hw => hI.queueDisjoint a ha hw)
  | aClear =>
      simp only [step, MotorGreenletEvent.clear] at hs
      cases hs
      refine ⟨hI.waitersNodup, hI.timeoutsNodup, hI.paired, hI.timerUnique,
        ?_, hI.queueDisjoint, hI.queueNodup⟩
      intro h
      simp at h
  | aWait g parent tmo handle =>
      simp only [step] at hs
      by_cases hen : waitEnabled c g handle
      · rw [if_pos hen] at hs
        obtain ⟨hgw, hgq, hfresh⟩ := hen
        cases parent with
        | none => simp [MotorGreenletEvent.wait] at hs
        | some p =>
          by_cases hf : c.gate.flag = true
          · simp only [MotorGreenletEvent.wait, hf, if_true] at hs
            cases hs
            exact ⟨hI.waitersNodup, hI.timeoutsNodup, hI.paired, hI.timerUnique,
              hI.flagClean, hI.queueDisjoint, hI.queueNodup⟩
          · rw [Bool.not_eq_true] at hf
            simp only [MotorGreenletEvent.wait, hf] at hs
            cases tmo with
            | none =>
                simp only [] at hs
                cases hs
                refine ⟨nodup_setAdd g hI.waitersNodup, hI.timeoutsNodup,
                  ?_, hI.timerUnique, ?_, ?_, hI.queueNodup⟩
                · intro t g' hm
                  exact mem_setAdd.mpr (Or.inr (hI.paired t g' hm))
                · intro h
                  simp [hf] at h
                · intro g' hq hmem
                  rcases mem_setAdd.mp hmem with rfl | hold
                  · exact hgq hq
                  · exact hI.queueDisjoint g' hq hold
            | some secs =>
                simp only [] at hs
                cases hs
                refine ⟨nodup_setAdd g hI.waitersNodup,
                  nodup_setAdd _ hI.timeoutsNodup, ?_, ?_, ?_, ?_, hI.queueNodup⟩
                · intro t g' hm
                  rcases mem_setAdd.mp hm with heq | hold
                  · injection heq with h1 h2
                    subst h2
                    exact mem_setAdd.mpr (Or.inl rfl)
                  · exact mem_setAdd.mpr (Or.inr (hI.paired t g' hold))
                · intro t t' g' h1 h2
                  rcases mem_setAdd.mp h1 with he1 | ho1 <;>
                    rcases mem_setAdd.mp h2 with he2 | ho2
                  · injection he1 with ht1 _
                    injection he2 with ht2 _
                    rw [ht1, ht2]
                  · injection he1 with ht1 hg1
                    subst hg1
                    exact absurd (hI.paired t' g' ho2) hgw
                  · injection he2 with ht2 hg2
                    subst hg2
                    exact absurd (hI.paired t g' ho1) hgw
                  · exact hI.timerUnique t t' g' ho1 ho2
                · intro h
                  simp [hf] at h
                · intro g' hq hmem
                  rcases mem_setAdd.mp hmem with rfl | hold
                  · exact hgq hq
                  · exact hI.queueDisjoint g' hq hold
      · rw [if_neg hen] at hs
        exact Option.noConfusion hs
  | aTimeout g t =>
      simp only [step] at hs
      cases hot : MotorGreenletEvent.on_timeout c.gate g t with
      | none =>
          rw [hot] at hs
          exact Option.noConfusion hs
      | some r =>
          rw [hot] at hs
          obtain ⟨hw, ht, rfl⟩ := on_timeout_eq_some hot
          cases hs
          refine ⟨List.Nodup.erase g hI.waitersNodup,
            List.Nodup.erase (t, g) hI.timeoutsNodup, ?_, ?_, ?_, ?_, hI.queueNodup⟩
          · intro t' g' hm
            obtain ⟨hne, hold⟩ := (hI.timeoutsNodup.mem_erase_iff).mp hm
            refine (hI.waitersNodup.mem_erase_iff).mpr ⟨?_, hI.paired t' g' hold⟩
            intro hgg
            subst hgg
            exact hne (by rw [hI.timerUnique t' t g' hold ht])
          · intro t1 t2 g' h1 h2
            exact hI.timerUnique t1 t2 g' (List.mem_of_mem_erase h1)
              (List.mem_of_mem_erase h2)
          · intro h
            exact absurd hw (by simp [(hI.flagClean h).1])
          · intro g' hq hmem
            exact hI.queueDisjoint g' hq (List.mem_of_mem_erase hmem)
  | aCallback =>
      simp only [step] at hs
      cases hq : c.queue with
      | nil =>
          rw [hq] at hs
          exact Option.noConfusion hs
      | cons g rest =>
          rw [hq] at hs
          cases hs
          refine ⟨hI.waitersNodup, hI.timeoutsNodup, hI.paired, hI.timerUnique,
            hI.flagClean, ?_, ?_⟩
          · intro g' hg'
            exact hI.queueDisjoint g' (hq ▸ List.mem_cons_of_mem g hg')
          · have hqd := hI.queueNodup
            rw [hq] at hqd
            exact hqd.of_cons

theorem inv_reachable {c : Config} (h : Reachable c) : Inv c := by
  induction h with
  | init =>
      refine ⟨?_, ?_, ?_, ?_, ?_, ?_, ?_⟩ <;>
        simp [initConfig, MotorGreenletEvent.init]
  | next _ hs ih => exact inv_step ih hs

/-- Claim C1: for every Gate state, `set` (signal) sets the flag to true,
cancels every timer in `_timeouts` via `io_loop.remove_timeout` and empties
`_timeouts`, empties `_waiters`, and for each former waiter schedules a
deferred resumption through `io_loop.add_callback`; no direct greenlet
switch (neither `switch` nor `parentSwitch`) is issued inside `set` itself. -/
theorem set_signals_deferred (s : GateState) :
    (MotorGreenletEvent.set s).1.flag = true ∧
    (MotorGreenletEvent.set s).1.timeouts = [] ∧
    (MotorGreenletEvent.set s).1.waiters = [] ∧
    (MotorGreenletEvent.set s).2 =
      s.timeouts.map (fun tg => Effect.removeTimeout tg.1)
        ++ s.waiters.map (fun g => Effect.addCallback g) ∧
    (∀ t g, (t, g) ∈ s.timeouts →
      Effect.removeTimeout t ∈ (MotorGreenletEvent.set s).2) ∧
    (∀ g, g ∈ s.waiters → Effect.addCallback g ∈ (MotorGreenletEvent.set s).2) ∧
    (∀ g, Effect.switch g ∉ (MotorGreenletEvent.set s).2 ∧
      Effect.parentSwitch g ∉ (MotorGreenletEvent.set s).2) := by
  refine ⟨rfl, rfl, rfl, rfl, ?_, ?_, ?_⟩
  · intro t g hm
    unfold MotorGreenletEvent.set
    simp only [List.mem_append, List.mem_map]
    exact Or.inl ⟨(t, g), hm, rfl⟩
  · intro g hm
    unfold MotorGreenletEvent.set
    simp only [List.mem_append, List.mem_map]
    exact Or.inr ⟨g, hm, rfl⟩
  · intro g
    unfold MotorGreenletEvent.set
    constructor <;> simp

/-- Witness for `set_signals_deferred` on a state with one waiter and one
pending timeout. -/
theorem set_signals_deferred_w :
    (MotorGreenletEvent.set
      { flag := false, waiters := [1], timeouts := [(7, 1)] }).1.flag = true ∧
    Effect.removeTimeout 7 ∈
      (MotorGreenletEvent.set
        { flag := false, waiters := [1], timeouts := [(7, 1)] }).2 ∧
    Effect.addCallback 1 ∈
      (MotorGreenletEvent.set
        { flag := false, waiters := [1], timeouts := [(7, 1)] }).2 := by
  have h := set_signals_deferred
    { flag := false, waiters := [1], timeouts := [(7, 1)] }
  exact ⟨h.1, h.2.2.2.2.1 7 1 (by decide), h.2.2.2.2.2.1 1 (by decide)⟩

/-- Claim C4: a `wait` call from a greenlet with a parent while the flag is
already true returns `Except.ok` immediately with the state unchanged
(`_waiters` and `_timeouts` untouched) and no reactor calls and no greenlet
switch, and `is_set` still returns true. -/
theorem wait_signaled_immediate (s : GateState) (current : Greenlet)
    (p : Greenlet) (tmo : Option ℚ) (handle : TimerHandle)
    (hf : s.flag = true) :
    MotorGreenletEvent.wait s current (some p) tmo handle = Except.ok (s, []) ∧
    MotorGreenletEvent.is_set s = true := by
  constructor
  · unfold MotorGreenletEvent.wait
    simp [hf]
  · exact hf

/-- Witness for `wait_signaled_immediate` at a concrete signaled state. -/
theorem wait_signaled_immediate_w :
    MotorGreenletEvent.wait
        { flag := true, waiters := [], timeouts := [] } 5 (some 0) none 0 =
      Except.ok ({ flag := true, waiters := [], timeouts := [] }, []) ∧
    MotorGreenletEvent.is_set { flag := true, waiters := [], timeouts := [] } = true :=
  wait_signaled_immediate { flag := true, waiters := [], timeouts := [] }
    5 0 none 0 rfl

/-- Claim C6: `wait` fails with the assertion (`assert parent`) exactly when
the calling greenlet has no parent; from a greenlet with a parent it always
returns `Except.ok` (for every state and timeout argument). `set`, `clear`
and `is_set` are total functions of the state and cannot raise this
failure. -/
theorem wait_assert_iff_no_parent (s : GateState) (current : Greenlet)
    (tmo : Option ℚ) (handle : TimerHandle) :
    MotorGreenletEvent.wait s current none tmo handle =
      Except.error MotorGreenletEvent.WaitError.assertionFailed ∧
    ∀ p, ∃ r, MotorGreenletEvent.wait s current (some p) tmo handle =
      Except.ok r := by
  refine ⟨rfl, ?_⟩
  intro p
  unfold MotorGreenletEvent.wait
  by_cases hf : s.flag = true
  · exact ⟨(s, []), by simp [hf]⟩
  · rw [Bool.not_eq_true] at hf
    cases tmo with
    | none =>
        exact ⟨({ s with waiters := setAdd s.waiters current },
          [Effect.parentSwitch p]), by simp [hf]⟩
    | some secs =>
        exact ⟨({ s with
                    waiters := setAdd s.waiters current,
                    timeouts := setAdd s.timeouts (handle, current) },
          [Effect.addTimeout secs handle, Effect.parentSwitch p]), by simp [hf]⟩

/-- Witness for `wait_assert_iff_no_parent` at a concrete unsignaled state:
the parentless call fails with the assertion. -/
theorem wait_assert_iff_no_parent_w :
    MotorGreenletEvent.wait
        { flag := false, waiters := [1], timeouts := [(7, 1)] } 2 none none 0 =
      Except.error MotorGreenletEvent.WaitError.assertionFailed :=
  (wait_assert_iff_no_parent
    { flag := false, waiters := [1], timeouts := [(7, 1)] } 2 none 0).1

/-- Claim C9: `clear` sets the flag to false, leaves `_waiters` and
`_timeouts` untouched, issues no reactor calls, and is idempotent. -/
theorem clear_frame (s : GateState) :
    (MotorGreenletEvent.clear s).1.flag = false ∧
    (MotorGreenletEvent.clear s).1.waiters = s.waiters ∧
    (MotorGreenletEvent.clear s).1.timeouts = s.timeouts ∧
    (MotorGreenletEvent.clear s).2 = [] ∧
    MotorGreenletEvent.clear (MotorGreenletEvent.clear s).1 =
      MotorGreenletEvent.clear s :=
  ⟨rfl, rfl, rfl, rfl, rfl⟩

/-- Witness for `clear_frame` on a signaled state with one waiter and one
pending timeout. -/
theorem clear_frame_w :
    (MotorGreenletEvent.clear
      { flag := true, waiters := [1], timeouts := [(7, 1)] }).1.flag = false ∧
    (MotorGreenletEvent.clear
      { flag := true, waiters := [1], timeouts := [(7, 1)] }).1.waiters =
      ({ flag := true, waiters := [1], timeouts := [(7, 1)] } : GateState).waiters ∧
    (MotorGreenletEvent.clear
      { flag := true, waiters := [1], timeouts := [(7, 1)] }).2 = [] := by
  have h := clear_frame { flag := true, waiters := [1], timeouts := [(7, 1)] }
  exact ⟨h.1, h.2.1, h.2.2.2.1⟩

/-- Claim C10: the `assert parent` precondition is evaluated before the flag
is consulted: even in a state whose flag is already true (where a parented
`wait` would return immediately), a parentless `wait` raises the assertion
failure instead of returning. -/
theorem wait_parent_checked_first (s : GateState) (current : Greenlet)
    (tmo : Option ℚ) (handle : TimerHandle) (hf : s.flag = true) :
    MotorGreenletEvent.is_set s = true ∧
    MotorGreenletEvent.wait s current none tmo handle =
      Except.error MotorGreenletEvent.WaitError.assertionFailed :=
  ⟨hf, rfl⟩

/-- Witness for `wait_parent_checked_first` at a concrete signaled state. -/
theorem wait_parent_checked_first_w :
    MotorGreenletEvent.is_set { flag := true, waiters := [], timeouts := [] } = true ∧
    MotorGreenletEvent.wait
        { flag := true, waiters := [], timeouts := [] } 3 none none 0 =
      Except.error MotorGreenletEvent.WaitError.assertionFailed :=
  wait_parent_checked_first { flag := true, waiters := [], timeouts := [] }
    3 none 0 rfl

/-- Claim C3: a `wait` while the flag is false from a greenlet with a parent
adds the current greenlet to `_waiters`; with a timeout it also registers a
reactor timer (`addTimeout`) whose handle goes into `_timeouts`, and it
finally yields to the parent (`parentSwitch` is the last effect); without a
timeout, `_timeouts` is untouched and the only effect is the yield. The
registered timer can fire, and when `on_timeout` runs it removes the
greenlet from `_waiters` and the timer from `_timeouts` and resumes the
greenlet by a direct, immediate `switch` (not a deferred `addCallback`). -/
theorem wait_registers_and_timeout_is_direct (s : GateState)
    (current : Greenlet) (p : Greenlet) (secs : ℚ) (handle : TimerHandle)
    (hf : s.flag = false) (hwn : s.waiters.Nodup) (htn : s.timeouts.Nodup) :
    MotorGreenletEvent.wait s current (some p) (some secs) handle =
      Except.ok ({ s with
          waiters := setAdd s.waiters current,
          timeouts := setAdd s.timeouts (handle, current) },
        [Effect.addTimeout secs handle, Effect.parentSwitch p]) ∧
    current ∈ setAdd s.waiters current ∧
    (handle, current) ∈ setAdd s.timeouts (handle, current) ∧
    MotorGreenletEvent.wait s current (some p) none handle =
      Except.ok ({ s with waiters := setAdd s.waiters current },
        [Effect.parentSwitch p]) ∧
    (MotorGreenletEvent.on_timeout
        { s with
            waiters := setAdd s.waiters current,
            timeouts := setAdd s.timeouts (handle, current) }
        current handle).isSome = true ∧
    (∀ s2 effs2, MotorGreenletEvent.on_timeout
        { s with
            waiters := setAdd s.waiters current,
            timeouts := setAdd s.timeouts (handle, current) }
        current handle = some (s2, effs2) →
      current ∉ s2.waiters ∧ (handle, current) ∉ s2.timeouts ∧
        effs2 = [Effect.switch current]) := by
  have hmw : current ∈ setAdd s.waiters current := mem_setAdd.mpr (Or.inl rfl)
  have hmt : (handle, current) ∈ setAdd s.timeouts (handle, current) :=
    mem_setAdd.mpr (Or.inl rfl)
  refine ⟨?_, hmw, hmt, ?_, ?_, ?_⟩
  · unfold MotorGreenletEvent.wait
    simp [hf]
  · unfold MotorGreenletEvent.wait
    simp [hf]
  · unfold MotorGreenletEvent.on_timeout
    rw [if_pos hmw, if_pos hmt]
    rfl
  · intro s2 effs2 h2
    obtain ⟨_, _, hr⟩ := on_timeout_eq_some h2
    injection hr with hr1 hr2
    subst hr1
    refine ⟨?_, ?_, hr2⟩
    · intro hmem
      exact ((nodup_setAdd current hwn).mem_erase_iff.mp hmem).1 rfl
    · intro hmem
      exact ((nodup_setAdd _ htn).mem_erase_iff.mp hmem).1 rfl

/-- Witness for `wait_registers_and_timeout_is_direct` on the freshly
constructed Gate, waiter 1 with parent 0, a 1-second timeout and timer
handle 7; the `on_timeout` consequence is exercised at the state and effect
list the call actually produces. -/
theorem wait_registers_and_timeout_is_direct_w :
    MotorGreenletEvent.wait MotorGreenletEvent.init 1 (some 0) (some 1) 7 =
      Except.ok ({ MotorGreenletEvent.init with
          waiters := setAdd MotorGreenletEvent.init.waiters 1,
          timeouts := setAdd MotorGreenletEvent.init.timeouts (7, 1) },
        [Effect.addTimeout 1 7, Effect.parentSwitch 0]) ∧
    (1 : Greenlet) ∉
      ({ flag := false, waiters := [], timeouts := [] } : GateState).waiters ∧
    ((7, 1) : TimerHandle × Greenlet) ∉
      ({ flag := false, waiters := [], timeouts := [] } : GateState).timeouts ∧
    [Effect.switch 1] = [Effect.switch 1] := by
  have h := wait_registers_and_timeout_is_direct MotorGreenletEvent.init
    1 0 1 7 rfl (by decide) (by decide)
  refine ⟨h.1, ?_⟩
  have h6 := h.2.2.2.2.2 { flag := false, waiters := [], timeouts := [] }
    [Effect.switch 1] (by decide)
  exact ⟨h6.1, h6.2.1, h6.2.2⟩

theorem wait_flag_eq {s : GateState} {current : Greenlet}
    {parent : Option Greenlet} {tmo : Option ℚ} {handle : TimerHandle}
    {r : GateState × List Effect}
    (h : MotorGreenletEvent.wait s current parent tmo handle = Except.ok r) :
    r.1.flag = s.flag := by
  unfold MotorGreenletEvent.wait at h
  split at h
  · exact Except.noConfusion h
  · split at h
    · injection h with h
      rw [← h]
    · split at h <;> (injection h with h; rw [← h])

/-- Claim C8: across every reactor step, the flag goes false-to-true only
via `set` and true-to-false only via `clear`; a `wait` step, a firing
`on_timeout` and a dequeued deferred callback all leave the flag unchanged,
so in particular `is_set` still reads false after a timeout-path resumption
with no `set` issued. -/
theorem flag_transitions_only_set_clear (c : Config) (a : Action) (c' : Config)
    (hs : step c a = some c') :
    (c.gate.flag = false → c'.gate.flag = true → a = Action.aSet) ∧
    (c.gate.flag = true → c'.gate.flag = false → a = Action.aClear) ∧
    (∀ g t, a = Action.aTimeout g t → c'.gate.flag = c.gate.flag) ∧
    (∀ g parent tmo handle, a = Action.aWait g parent tmo handle →
      c'.gate.flag = c.gate.flag) ∧
    (a = Action.aCallback → c'.gate.flag = c.gate.flag) ∧
    (∀ g t, a = Action.aTimeout g t →
      MotorGreenletEvent.is_set c'.gate = MotorGreenletEvent.is_set c.gate) := by
  cases a with
  | aSet =>
      simp only [step] at hs
      cases hs
      refine ⟨fun _ _ => rfl, ?_, ?_, ?_, ?_, ?_⟩
      · intro _ h2
        simp [MotorGreenletEvent.set] at h2
      · intro g t heq
        exact Action.noConfusion heq
      · intro g parent tmo handle heq
        exact Action.noConfusion heq
      · intro heq
        exact Action.noConfusion heq
      · intro g t heq
        exact Action.noConfusion heq
  | aClear =>
      simp only [step, MotorGreenletEvent.clear] at hs
      cases hs
      refine ⟨?_, fun _ _ => rfl, ?_, ?_, ?_, ?_⟩
      · intro _ h2
        simp at h2
      · intro g t heq
        exact Action.noConfusion heq
      · intro g parent tmo handle heq
        exact Action.noConfusion heq
      · intro heq
        exact Action.noConfusion heq
      · intro g t heq
        exact Action.noConfusion heq
  | aWait g parent tmo handle =>
      simp only [step] at hs
      split at hs
      · split at hs
        · exact Option.noConfusion hs
        · rename_i r hok
          cases hs
          have hp : ({ c with gate := r.1 } : Config).gate.flag = c.gate.flag :=
            wait_flag_eq hok
          refine ⟨?_, ?_, ?_, fun _ _ _ _ _ => hp, ?_, ?_⟩
          · intro h1 h2
            rw [hp, h1] at h2
            exact Bool.noConfusion h2
          · intro h1 h2
            rw [hp, h1] at h2
            exact Bool.noConfusion h2
          · intro g' t' heq
            exact Action.noConfusion heq
          · intro heq
            exact Action.noConfusion heq
          · intro g' t' heq
            exact Action.noConfusion heq
      · exact Option.noConfusion hs
  | aTimeout g t =>
      simp only [step] at hs
      cases hot : MotorGreenletEvent.on_timeout c.gate g t with
      | none =>
          rw [hot] at hs
          exact Option.noConfusion hs
      | some r =>
          rw [hot] at hs
          obtain ⟨_, _, rfl⟩ := on_timeout_eq_some hot
          cases hs
          refine ⟨?_, ?_, fun _ _ _ => rfl, ?_, ?_, fun _ _ _ => rfl⟩
          · intro h1 h2
            rw [h1] at h2
            exact Bool.noConfusion h2
          · intro h1 h2
            rw [h1] at h2
            exact Bool.noConfusion h2
          · intro g' parent tmo handle heq
            exact Action.noConfusion heq
          · intro heq
            exact Action.noConfusion heq
  | aCallback =>
      simp only [step] at hs
      cases hq : c.queue with
      | nil =>
          rw [hq] at hs
          exact Option.noConfusion hs
      | cons g rest =>
          rw [hq] at hs
          cases hs
          refine ⟨?_, ?_, ?_, ?_, fun _ => rfl, ?_⟩
          · intro h1 h2
            rw [h1] at h2
            exact Bool.noConfusion h2
          · intro h1 h2
            rw [h1] at h2
            exact Bool.noConfusion h2
          · intro g' t' heq
            exact Action.noConfusion heq
          · intro g' parent tmo handle heq
            exact Action.noConfusion heq
          · intro g' t' heq
            exact Action.noConfusion heq

/-- Witness for `flag_transitions_only_set_clear`: the timeout of waiter 1
with timer handle 7 fires on a Gate whose flag is false; afterwards
`is_set` still reads false. -/
theorem flag_transitions_only_set_clear_w :
    MotorGreenletEvent.is_set
        ({ gate := { flag := false, waiters := [], timeouts := [] },
           queue := [], resumedLog := [1] } : Config).gate =
      MotorGreenletEvent.is_set
        ({ gate := { flag := false, waiters := [1], timeouts := [(7, 1)] },
           queue := [], resumedLog := [] } : Config).gate :=
  (flag_transitions_only_set_clear
    { gate := { flag := false, waiters := [1], timeouts := [(7, 1)] },
      queue := [], resumedLog := [] }
    (Action.aTimeout 1 7)
    { gate := { flag := false, waiters := [], timeouts := [] },
      queue := [], resumedLog := [1] }
    (by decide)).2.2.2.2.2 1 7 rfl

theorem reachable_one_waiter :
    Reachable { gate := { flag := false, waiters := [1], timeouts := [(7, 1)] },
                queue := [], resumedLog := [] } :=
  @Reachable.next initConfig (Action.aWait 1 (some 0) (some 1) 7)
    { gate := { flag := false, waiters := [1], timeouts := [(7, 1)] },
      queue := [], resumedLog := [] }
    Reachable.init (by decide)

theorem reachable_signaled :
    Reachable { gate := { flag := true, waiters := [], timeouts := [] },
                queue := [], resumedLog := [] } :=
  @Reachable.next initConfig Action.aSet
    { gate := { flag := true, waiters := [], timeouts := [] },
      queue := [], resumedLog := [] }
    Reachable.init (by decide)

/-- Claim C2: from any reachable configuration, one `set` call schedules a
deferred resumption for exactly the current waiters, each exactly once (the
waiter list is duplicate-free and disjoint from the already-queued
callbacks), and afterwards no timeout can fire at all; conversely a firing
timeout removes its waiter from `_waiters`, leaves no timer of that waiter
in `_timeouts`, and that waiter is not pending in the callback queue — so
the signal path and the timeout path can never both resume one waiter. -/
theorem signal_and_timeout_mutually_exclusive (c : Config) (hr : Reachable c) :
    (∀ c', step c Action.aSet = some c' →
      c'.queue = c.queue ++ c.gate.waiters ∧
      c.gate.waiters.Nodup ∧
      (∀ g, g ∈ c.gate.waiters → g ∉ c.queue) ∧
      (∀ g t, step c' (Action.aTimeout g t) = none)) ∧
    (∀ g t c2, step c (Action.aTimeout g t) = some c2 →
      g ∉ c2.gate.waiters ∧ (∀ t', (t', g) ∉ c2.gate.timeouts) ∧
        g ∉ c2.queue) := by
  have hI := inv_reachable hr
  constructor
  · intro c' hs
    simp only [step] at hs
    cases hs
    refine ⟨?_, hI.waitersNodup, ?_, ?_⟩
    · rw [callbacksOf_set]
    · intro g hg hq
      exact hI.queueDisjoint g hq hg
    · intro g t
      simp [step, MotorGreenletEvent.on_timeout, MotorGreenletEvent.set]
  · intro g t c2 hs
    simp only [step] at hs
    cases hot : MotorGreenletEvent.on_timeout c.gate g t with
    | none =>
        rw [hot] at hs
        exact Option.noConfusion hs
    | some r =>
        rw [hot] at hs
        obtain ⟨hw, ht, rfl⟩ := on_timeout_eq_some hot
        cases hs
        refine ⟨?_, ?_, fun hq => hI.queueDisjoint g hq hw⟩
        · intro hmem
          exact (hI.waitersNodup.mem_erase_iff.mp hmem).1 rfl
        · intro t' hmem
          obtain ⟨hne, hold⟩ := hI.timeoutsNodup.mem_erase_iff.mp hmem
          exact hne (by rw [hI.timerUnique t' t g hold ht])

/-- Witness for `signal_and_timeout_mutually_exclusive`: after waiter 1
registers with timer 7 and `set` fires, the timeout can no longer fire; and
if instead the timeout fires first, waiter 1 is gone from the waiter set. -/
theorem signal_and_timeout_mutually_exclusive_w :
    step { gate := { flag := true, waiters := [], timeouts := [] },
           queue := [1], resumedLog := [] } (Action.aTimeout 1 7) = none ∧
    (1 : Greenlet) ∉
      ({ gate := { flag := false, waiters := [], timeouts := [] },
         queue := [], resumedLog := [1] } : Config).gate.waiters := by
  have h := signal_and_timeout_mutually_exclusive
    { gate := { flag := false, waiters := [1], timeouts := [(7, 1)] },
      queue := [], resumedLog := [] }
    reachable_one_waiter
  exact ⟨(h.1 { gate := { flag := true, waiters := [], timeouts := [] },
                queue := [1], resumedLog := [] } (by decide)).2.2.2 1 7,
    (h.2 1 7 { gate := { flag := false, waiters := [], timeouts := [] },
               queue := [], resumedLog := [1] } (by decide)).1⟩

/-- Claim C5: in every reachable configuration, every entry of `_timeouts`
has its waiter registered in `_waiters`, and every reactor step (`set`,
`clear`, a `wait` registration, a firing timeout, a dequeued callback)
preserves this pairing — the two sets gain and lose paired entries
together. -/
theorem timeouts_waiters_paired (c : Config) (hr : Reachable c) :
    (∀ t g, (t, g) ∈ c.gate.timeouts → g ∈ c.gate.waiters) ∧
    (∀ a c', step c a = some c' →
      ∀ t g, (t, g) ∈ c'.gate.timeouts → g ∈ c'.gate.waiters) :=
  ⟨(inv_reachable hr).paired,
    fun _ _ hs => (inv_step (inv_reachable hr) hs).paired⟩

/-- Witness for `timeouts_waiters_paired`: waiter 1 of the pending timeout
(7, 1) is registered in the waiter set of a concrete reachable state. -/
theorem timeouts_waiters_paired_w :
    (1 : Greenlet) ∈
      ({ gate := { flag := false, waiters := [1], timeouts := [(7, 1)] },
         queue := [], resumedLog := [] } : Config).gate.waiters :=
  (timeouts_waiters_paired
    { gate := { flag := false, waiters := [1], timeouts := [(7, 1)] },
      queue := [], resumedLog := [] }
    reachable_one_waiter).1 7 1 (by decide)

/-- Claim C7: in every reachable configuration whose flag is true the waiter
and timeout sets are empty, so `set` without an intervening `clear` is a
no-op: it returns the identical Gate state with an empty effect list (no
resumption callbacks and no timer cancellations), and the whole reactor
configuration is unchanged. -/
theorem set_noop_when_signaled (c : Config) (hr : Reachable c)
    (hf : c.gate.flag = true) :
    c.gate.waiters = [] ∧ c.gate.timeouts = [] ∧
    MotorGreenletEvent.set c.gate = (c.gate, []) ∧
    step c Action.aSet = some c := by
  obtain ⟨hw, ht⟩ := (inv_reachable hr).flagClean hf
  have hg : c.gate = { flag := true, waiters := [], timeouts := [] } := by
    rw [← hf, ← hw, ← ht]
  refine ⟨hw, ht, ?_, ?_⟩
  · rw [hg]
    simp [MotorGreenletEvent.set]
  · have h1 : step c Action.aSet =
        some { gate := (MotorGreenletEvent.set c.gate).1,
               queue := c.queue ++ callbacksOf (MotorGreenletEvent.set c.gate).2,
               resumedLog := c.resumedLog } := rfl
    rw [h1, hg]
    simp only [MotorGreenletEvent.set, callbacksOf, List.map_nil,
      List.append_nil, List.filterMap_nil]
    rw [← hg]

/-- Witness for `set_noop_when_signaled` at the concrete reachable signaled
configuration obtained by one `set` from the initial one. -/
theorem set_noop_when_signaled_w :
    ({ gate := { flag := true, waiters := [], timeouts := [] },
       queue := [], resumedLog := [] } : Config).gate.waiters = [] ∧
    ({ gate := { flag := true, waiters := [], timeouts := [] },
       queue := [], resumedLog := [] } : Config).gate.timeouts = [] ∧
    MotorGreenletEvent.set
        ({ gate := { flag := true, waiters := [], timeouts := [] },
           queue := [], resumedLog := [] } : Config).gate =
      (({ gate := { flag := true, waiters := [], timeouts := [] },
          queue := [], resumedLog := [] } : Config).gate, []) ∧
    step { gate := { flag := true, waiters := [], timeouts := [] },
           queue := [], resumedLog := [] } Action.aSet =
      some { gate := { flag := true, waiters := [], timeouts := [] },
             queue := [], resumedLog := [] } :=
  set_noop_when_signaled
    { gate := { flag := true, waiters := [], timeouts := [] },
      queue := [], resumedLog := [] }
    reachable_signaled rfl

end Motor
